import Mathlib

/-!
Verification development for the i18n-editor-extension repository.

The definitions below are a shallow embedding of the two programs the
claims are about:

* `native/update-i18n.js` — the translation-file updater (`updateI18n`,
  `keyExists`, `traversePath`);
* the native messaging host (`handleMessage`, `sendMessage`, the stdin
  frame decoder and the stdout frame encoder).

Modelling conventions:

* Parsed JSON documents are the inductive `Json`.  JSON numbers are
  modelled as integers (no claim depends on float formatting).
* JavaScript's `!x` test on the string fields of a payload item is
  modelled by comparison with `""`: an absent field and an empty string
  are both falsy and the code never distinguishes them.
* The file system is a map from path strings to parsed contents.  A path
  mapped to `none` covers both a missing file and an unreadable or
  unparseable one: `updateI18n` reacts to the three cases identically
  (it logs and continues to the next namespace).
* Side effects are recorded as an explicit event trace (`FsEvent`):
  one `read` per `readFileSync` of an existing file, one `backup` per
  `copyFileSync`, one `write` per `writeFileSync`.  The timestamp suffix
  of a backup file name is a wall-clock value and is outside the model;
  a `backup` event records the source path being copied.
-/

namespace I18n

/-- Parsed JSON values, as produced by `JSON.parse`. -/
inductive Json where
  | null
  | bool (b : Bool)
  | num (n : Int)
  | str (s : String)
  | arr (elems : List Json)
  | obj (fields : List (String × Json))

/-- Index lookup used to model a JavaScript array's own properties: the
array indices `"0" … "len-1"`. -/
def idxOf (len : Nat) (s : String) : Option Nat :=
  (List.range len).find? (fun i => toString i == s)

/-- The test `cursor && typeof cursor === 'object' && cursor.hasOwnProperty(seg)`
from `keyExists` / `traversePath`.  Objects own their keys; arrays own
their indices and `length`; `null`, strings, numbers and booleans fail
either the truthiness or the `typeof` test. -/
def hasProp : Json → String → Bool
  | .obj fields, s => fields.any (fun kv => kv.1 == s)
  | .arr xs, s => (idxOf xs.length s).isSome || s == "length"
  | _, _ => false

/-- Property read `cursor[seg]`, only meaningful when `hasProp` holds
(the default `.null` is never reached under that guard). -/
def getProp : Json → String → Json
  | .obj fields, s => ((fields.find? (fun kv => kv.1 == s)).map Prod.snd).getD .null
  | .arr xs, s =>
      match idxOf xs.length s with
      | some i => xs.getD i .null
      | none => if s == "length" then .num xs.length else .null
  | _, _ => .null

/-- JavaScript `keyPath.split('.')` on the character list: splits at every
dot, keeping empty segments, and yields `[""]` for the empty string. -/
def splitSegs : List Char → List (List Char)
  | [] => [[]]
  | c :: cs =>
    match splitSegs cs with
    | [] => [[]]
    | seg :: rest => if c = '.' then [] :: seg :: rest else (c :: seg) :: rest

/-- The split `keyPath.split('.')` as a list of segment strings. -/
def splitDots (s : String) : List String := (splitSegs s.data).map String.mk

/-- Body of `keyExists` over an explicit segment list: every segment must
be an own property of the current cursor. -/
def keyExistsSegs : Json → List String → Bool
  | _, [] => true
  | j, s :: rest => hasProp j s && keyExistsSegs (getProp j s) rest

/-- The function `keyExists(jsonData, keyPath)` from `update-i18n.js`. -/
def keyExists (jsonData : Json) (keyPath : String) : Bool :=
  keyExistsSegs jsonData (splitDots keyPath)

/-- Body of `traversePath` over an explicit segment list.  The JS loop
walks to the parent of the last segment (raising `Missing path segment`)
and then checks the final key (raising `Missing final key`); the returned
cursor's current value is `parent[lastKey]`, which this function yields. -/
def traverseSegs (keyPath : String) : Json → List String → Except String Json
  | _, [] => .error ("Missing final key in path '" ++ keyPath ++ "'")
  | j, [s] =>
      if hasProp j s then .ok (getProp j s)
      else .error ("Missing final key '" ++ s ++ "' in path '" ++ keyPath ++ "'")
  | j, s :: s2 :: rest =>
      if hasProp j s then traverseSegs keyPath (getProp j s) (s2 :: rest)
      else .error ("Missing path segment '" ++ s ++ "' in path '" ++ keyPath ++ "'")

/-- The function `traversePath(jsonData, keyPath)` from `update-i18n.js`, read side:
the value of the returned cursor. -/
def traversePath (jsonData : Json) (keyPath : String) : Except String Json :=
  traverseSegs keyPath jsonData (splitDots keyPath)

/-- Property write on an object's field list: `obj[s] = v`.  The first
binding for `s` is replaced; an absent key would be appended, exactly as
a JavaScript assignment would add it (under `hasProp` it is present). -/
def setField : List (String × Json) → String → Json → List (String × Json)
  | [], s, v => [(s, v)]
  | (k, w) :: rest, s, v =>
      if k == s then (k, v) :: rest else (k, w) :: setField rest s v

/-- The assignment `cursor[lastKey] = val` performed through the cursor
returned by `traversePath`.  On an object it always succeeds.  On an
array, assigning an index replaces the element; assigning `length`
coerces the value to an array length and throws a `RangeError` for the
non-numeric strings the updater writes — modelled as always failing,
since every value the updater assigns is a translation string. -/
def setLeaf : Json → String → Json → Except String Json
  | .obj fields, s, v => .ok (.obj (setField fields s v))
  | .arr xs, s, v =>
      match idxOf xs.length s with
      | some i => .ok (.arr (xs.set i v))
      | none =>
        if s == "length" then .error "Invalid array length"
        else .error "cannot set array index"
  | _, _, _ => .error "cannot set property of non-object"

/-- Functional rebuild of an in-place mutation one level down: the JS
code mutates the shared structure through the cursor, so the enclosing
document sees the new child at the traversed segment. -/
def setChild : Json → String → Json → Json
  | .obj fields, s, v => .obj (setField fields s v)
  | .arr xs, s, v =>
      match idxOf xs.length s with
      | some i => .arr (xs.set i v)
      | none => .arr xs
  | j, _, _ => j

/-- Write side of the cursor returned by `traversePath`: walk the same
segments `traversePath` walks and perform `parent[lastKey] = val`. -/
def setSegs (j : Json) (segs : List String) (v : Json) : Except String Json :=
  match segs with
  | [] => .error "empty path"
  | [s] => if hasProp j s then setLeaf j s v else .error "missing final key"
  | s :: s2 :: rest =>
      if hasProp j s then
        match setSegs (getProp j s) (s2 :: rest) v with
        | .ok inner => .ok (setChild j s inner)
        | .error e => .error e
      else .error "missing path segment"

mutual

/-- JavaScript `String(v)` on a parsed JSON value, combined with the
updater's `typeof currentValue === 'string' ? currentValue : String(...)`
shortcut (which is the identity on strings, as `String` itself is).
Arrays stringify as the comma-join of their elements with `null`
rendered empty; objects as `[object Object]`. -/
def jsToString : Json → String
  | .null => "null"
  | .bool true => "true"
  | .bool false => "false"
  | .num n => toString n
  | .str s => s
  | .arr xs => String.intercalate "," (jsArrToStrings xs)
  | .obj _ => "[object Object]"

/-- Element rendering inside `Array.prototype.toString`. -/
def jsArrToStrings : List Json → List String
  | [] => []
  | .null :: rest => "" :: jsArrToStrings rest
  | x :: rest => jsToString x :: jsArrToStrings rest

end

/-- The locale file system: path → parsed content of a readable file. -/
abbrev FS := String → Option Json

/-- Reading a file: `fs.readFileSync` + `JSON.parse` (`none` when
`existsSync` fails or parsing throws; both make the loop continue). -/
def readFile (fs : FS) (p : String) : Option Json := fs p

/-- Writing a file: `fs.writeFileSync(p, JSON.stringify(j, null, 4))`. -/
def writeFile (fs : FS) (p : String) (j : Json) : FS :=
  fun q => if q = p then some j else fs q

/-- File-system side effects of one `updateI18n` call, in program order. -/
inductive FsEvent where
  | read (p : String)
  | backup (src : String)
  | write (p : String)
deriving DecidableEq

/-- One payload item.  The string fields model both the absent and the
empty case as `""` (JavaScript tests them with `!item.key` etc.). -/
structure Item where
  key : String
  old : String
  new : String
deriving DecidableEq

/-- The `namespacePriority` constant: `reviewed.json` first, then
`old.json` as fallback. -/
def namespacePriority : List String := ["reviewed", "old"]

/-- The path `path.join(root, lang, ns + ".json")`. -/
def filePathOf (root lang ns : String) : String :=
  root ++ "/" ++ lang ++ "/" ++ ns ++ ".json"

/-- Message pushed for an item with an empty `new` value. -/
def skipMsg (k : String) : String :=
  "Skipping item without 'new' value: " ++ k

/-- Message pushed when no namespace contains the key
(`namespacePriority.join(', ')` is `"reviewed, old"`). -/
def notFoundMsg (k : String) : String :=
  "Key not found in any namespace: " ++ k ++ " (searched: reviewed, old)"

/-- Message pushed on an old-value mismatch without `force`. -/
def mismatchMsg (ns k cur expected : String) : String :=
  "Mismatch for " ++ ns ++ "." ++ k ++ ": current=\"" ++ cur ++
    "\", expected=\"" ++ expected ++ "\""

/-- Message pushed when the update block throws. -/
def updateErrMsg (ns k e : String) : String :=
  "Error updating " ++ ns ++ "." ++ k ++ ": " ++ e

/-- The namespace search loop of `updateI18n`: walk the priority list,
skip unreadable files, stop at the first namespace whose document
contains the key.  Returns the read events performed and the find
(namespace name, parsed document, file path). -/
def searchNs (fs : FS) (root lang key : String) :
    List String → List FsEvent × Option (String × Json × String)
  | [] => ([], none)
  | ns :: rest =>
    let p := filePathOf root lang ns
    match readFile fs p with
    | none => searchNs fs root lang key rest
    | some d =>
      if keyExists d key then ([.read p], some (ns, d, p))
      else
        let r := searchNs fs root lang key rest
        (.read p :: r.1, r.2)

/-- State threaded through the `items.forEach` loop of `updateI18n`. -/
structure SessionState where
  fs : FS
  events : List FsEvent
  updatedFiles : List String
  errors : List String

/-- The `try` block of `updateI18n` once a namespace was found, after
the backup: traverse to the cursor, compare the current value against
`item.old` unless forced, assign through the cursor and write the file.
`evs` carries the read and backup events already performed for this
item. -/
def processFound (force : Bool) (st : SessionState) (item : Item)
    (ns : String) (d : Json) (p : String) (evs : List FsEvent) : SessionState :=
  match traversePath d item.key with
  | .error e =>
    { st with events := st.events ++ evs,
              errors := st.errors ++ [updateErrMsg ns item.key e] }
  | .ok cur =>
    if force = false ∧ jsToString cur ≠ item.old then
      { st with events := st.events ++ evs,
                errors := st.errors ++
                  [mismatchMsg ns item.key (jsToString cur) item.old] }
    else
      match setSegs d (splitDots item.key) (.str item.new) with
      | .error e =>
        { st with events := st.events ++ evs,
                  errors := st.errors ++ [updateErrMsg ns item.key e] }
      | .ok d2 =>
        { st with fs := writeFile st.fs p d2,
                  events := st.events ++ evs ++ [.write p],
                  updatedFiles :=
                    if p ∈ st.updatedFiles then st.updatedFiles
                    else st.updatedFiles ++ [p] }

/-- One iteration of the `items.forEach` body of `updateI18n`:
skip empty `new` (into `errors`), search the namespaces, back the file
up when it is not yet in `updatedFiles` (before the value check — the
`copyFileSync` sits at the top of the `try` block), then update. -/
def processItem (force : Bool) (root lang : String)
    (st : SessionState) (item : Item) : SessionState :=
  if item.new = "" then
    { st with errors := st.errors ++ [skipMsg item.key] }
  else
    match searchNs st.fs root lang item.key namespacePriority with
    | (evs, none) =>
      { st with events := st.events ++ evs,
                errors := st.errors ++ [notFoundMsg item.key] }
    | (evs, some (ns, d, p)) =>
      processFound force st item ns d p
        (evs ++ if p ∈ st.updatedFiles then [] else [.backup p])

/-- The upfront `items.forEach` validation: the first item with a falsy
`key` or `old` aborts the whole call. -/
def validateItems : Nat → List Item → Except String Unit
  | _, [] => .ok ()
  | idx, it :: rest =>
    if it.key = "" ∨ it.old = "" then
      .error ("Item " ++ toString idx ++ ": missing required field (key or old)")
    else validateItems (idx + 1) rest

/-- The configuration object `updateI18n` destructures.  `payload` is
`none` when absent (falsy); a single-object payload arrives here already
wrapped in a one-element list (`Array.isArray(payload) ? payload : [payload]`). -/
structure Config where
  root : String
  lang : String
  force : Bool
  payload : Option (List Item)

/-- The result object `updateI18n` returns. -/
structure UResult where
  success : Bool
  updatedFiles : List String
  errors : List String
  message : String
deriving DecidableEq

/-- The final result object built from the loop state. -/
def mkResult (st : SessionState) : UResult :=
  { success := st.errors.isEmpty,
    updatedFiles := st.updatedFiles,
    errors := st.errors,
    message :=
      if st.errors.length > 0 then
        "Completed with " ++ toString st.errors.length ++ " error(s)"
      else
        "Successfully updated " ++ toString st.updatedFiles.length ++ " file(s)" }

/-- Initial loop state: the file system untouched, no events, no updated
files, no errors. -/
def initState (fs : FS) : SessionState := ⟨fs, [], [], []⟩

/-- The call `updateI18n(config)` on a given file system.  The first component is
the returned result, or `Except.error` for a thrown exception; the
second is the session state after the call (on a throw the loop never
ran, so it is the initial state: no event was performed). -/
def updateI18n (cfg : Config) (fs : FS) : Except String UResult × SessionState :=
  match cfg.payload with
  | none => (.error "No payload provided", initState fs)
  | some items =>
    match validateItems 0 items with
    | .error e => (.error e, initState fs)
    | .ok _ =>
      let st := items.foldl (processItem cfg.force cfg.root cfg.lang) (initState fs)
      (.ok (mkResult st), st)

/-- UTF-8 encoding of one scalar value, as `Buffer.byteLength` /
`buffer.write(..., 'utf8')` produce it.  A Lean `Char` is always a
Unicode scalar value, so the four standard ranges cover every case. -/
def encodeChar (c : Char) : List Nat :=
  let n := c.toNat
  if n < 128 then [n]
  else if n < 2048 then [192 + n / 64, 128 + n % 64]
  else if n < 65536 then [224 + n / 4096, 128 + n / 64 % 64, 128 + n % 64]
  else [240 + n / 262144, 128 + n / 4096 % 64, 128 + n / 64 % 64, 128 + n % 64]

/-- UTF-8 byte sequence of a string (`Buffer.from(s, 'utf8')`). -/
def utf8Encode (s : String) : List Nat := s.data.flatMap encodeChar

/-- The write `buffer.writeUInt32LE(n, 0)`: the four little-endian bytes of `n`. -/
def uint32LE (n : Nat) : List Nat :=
  [n % 256, n / 256 % 256, n / 65536 % 256, n / 16777216 % 256]

/-- The read `buffer.readUInt32LE(0)` on four bytes. -/
def readUInt32LE (b0 b1 b2 b3 : Nat) : Nat :=
  b0 + 256 * b1 + 65536 * b2 + 16777216 * b3

/-- The framing performed by `sendMessage`: a 4-byte little-endian
length prefix holding the UTF-8 byte length of the payload, followed by
the UTF-8 bytes of the payload. -/
def encodeFrame (s : String) : List Nat :=
  uint32LE (utf8Encode s).length ++ utf8Encode s

mutual

/-- UTF-8 decoding of a byte sequence (`messageBytes.toString('utf8')`),
`none` on a malformed sequence.  The lead byte selects the sequence
length; the helpers consume the continuation bytes. -/
def utf8Decode : List Nat → Option (List Char)
  | [] => some []
  | b0 :: rest =>
    if b0 < 128 then
      (utf8Decode rest).map (fun cs => Char.ofNat b0 :: cs)
    else if b0 < 192 then none
    else if b0 < 224 then utf8Tail2 b0 rest
    else if b0 < 240 then utf8Tail3 b0 rest
    else if b0 < 248 then utf8Tail4 b0 rest
    else none

/-- Continuation of a 2-byte sequence with lead byte `b0`. -/
def utf8Tail2 (b0 : Nat) : List Nat → Option (List Char)
  | b1 :: rest =>
    if 128 ≤ b1 ∧ b1 < 192 then
      (utf8Decode rest).map (fun cs =>
        Char.ofNat ((b0 - 192) * 64 + (b1 - 128)) :: cs)
    else none
  | [] => none

/-- Continuation of a 3-byte sequence with lead byte `b0`. -/
def utf8Tail3 (b0 : Nat) : List Nat → Option (List Char)
  | b1 :: b2 :: rest =>
    if (128 ≤ b1 ∧ b1 < 192) ∧ (128 ≤ b2 ∧ b2 < 192) then
      (utf8Decode rest).map (fun cs =>
        Char.ofNat ((b0 - 224) * 4096 + (b1 - 128) * 64 + (b2 - 128)) :: cs)
    else none
  | _ => none

/-- Continuation of a 4-byte sequence with lead byte `b0`. -/
def utf8Tail4 (b0 : Nat) : List Nat → Option (List Char)
  | b1 :: b2 :: b3 :: rest =>
    if (128 ≤ b1 ∧ b1 < 192) ∧ ((128 ≤ b2 ∧ b2 < 192) ∧ (128 ≤ b3 ∧ b3 < 192)) then
      (utf8Decode rest).map (fun cs =>
        Char.ofNat ((b0 - 240) * 262144 + (b1 - 128) * 4096 +
          (b2 - 128) * 64 + (b3 - 128)) :: cs)
    else none
  | _ => none

end

/-- The length prefix a reader extracts from a frame: the first four
bytes, read little-endian (the `expectedLen = buffer.readUInt32LE(0)`
step of the stdin handler). -/
def frameLen : List Nat → Option Nat
  | b0 :: b1 :: b2 :: b3 :: _ => some (readUInt32LE b0 b1 b2 b3)
  | _ => none

/-- The stdin framing protocol, reader side: read the 4-byte prefix,
take exactly that many bytes, decode them as UTF-8. -/
def decodeFrame (l : List Nat) : Option String :=
  match l with
  | b0 :: b1 :: b2 :: b3 :: rest =>
    let n := readUInt32LE b0 b1 b2 b3
    if n ≤ rest.length then (utf8Decode (rest.take n)).map String.mk
    else none
  | _ => none

/-- The message the host receives from Chrome.  `force` is falsy when
absent; `payload` is `none` when absent; a single-object payload is
already wrapped (see `Config.payload`). -/
structure HostMsg where
  root : String
  lang : String
  force : Bool
  payload : Option (List Item)

/-- Shape of every response the host sends: `success`, an optional
`error` string, and a `message` string (`JSON.stringify` serializes the
fields in that insertion order). -/
structure WireResponse where
  success : Bool
  error : Option String
  message : String
deriving DecidableEq

/-- Lower-case hex digit. -/
def hexDigitChar (n : Nat) : Char :=
  if n < 10 then Char.ofNat (48 + n) else Char.ofNat (87 + n)

/-- JSON string escaping as `JSON.stringify` performs it on the
characters that occur in host responses. -/
def escapeChar (c : Char) : String :=
  if c = '"' then "\\\""
  else if c = '\\' then "\\\\"
  else if c = '\n' then "\\n"
  else if c = '\r' then "\\r"
  else if c = '\t' then "\\t"
  else if c = '\x08' then "\\b"
  else if c = '\x0c' then "\\f"
  else if c.toNat < 32 then
    "\\u00" ++ String.mk [hexDigitChar (c.toNat / 16), hexDigitChar (c.toNat % 16)]
  else String.singleton c

/-- A JSON string literal. -/
def jsonQuote (s : String) : String :=
  "\"" ++ String.join (s.data.map escapeChar) ++ "\""

/-- JSON boolean literal. -/
def boolLit : Bool → String
  | true => "true"
  | false => "false"

/-- Serialization `JSON.stringify(response)` for the host's response objects, with the
fields in insertion order: `success`, then `error` when present, then
`message`. -/
def serializeWire (r : WireResponse) : String :=
  "\x7b\"success\":" ++ boolLit r.success ++
    (match r.error with
     | none => ""
     | some e => ",\"error\":" ++ jsonQuote e) ++
    ",\"message\":" ++ jsonQuote r.message ++ "\x7d"

/-- The `handleMessage` function of the native messaging host: validate
`root`, `lang`, `payload`, run `updateI18n`, and build the minimal
response (`success` and `message` only); a thrown error is caught and
becomes the failure shape with an `error` field. -/
def handleMessage (msg : HostMsg) (fs : FS) : WireResponse :=
  if msg.root = "" ∨ msg.lang = "" ∨ msg.payload = none then
    { success := false,
      error := some "Missing required fields: root, lang, payload",
      message := "Error: Missing required fields: root, lang, payload" }
  else
    match (updateI18n ⟨msg.root, msg.lang, msg.force, msg.payload⟩ fs).1 with
    | .error e =>
      { success := false, error := some e, message := "Error: " ++ e }
    | .ok r =>
      { success := r.success, error := none,
        message := if r.message = "" then "OK" else r.message }

/-- The stdout side of the host: whether a response has been sent, and
every frame written to stdout so far.  Only `sendMessage` ever writes to
stdout (the prologue of the host rebinds `console.log`, `info`, `debug`
and `warn` to stderr). -/
structure OutState where
  hasResponded : Bool
  stdoutFrames : List (List Nat)
deriving DecidableEq

/-- State before anything was sent. -/
def initOut : OutState := ⟨false, []⟩

/-- The `sendMessage` function of the host: drop the call if a response
was already sent, otherwise serialize and write one length-prefixed
frame to stdout.  (Serializing the host's plain response records cannot
throw, so the `JSON.stringify` fallback branch is unreachable.) -/
def sendMessage (st : OutState) (resp : WireResponse) : OutState :=
  if st.hasResponded then st
  else { hasResponded := true,
         stdoutFrames := st.stdoutFrames ++ [encodeFrame (serializeWire resp)] }

/-- The response sent when `JSON.parse` of the incoming frame throws
with message `e`. -/
def parseFailResp (e : String) : WireResponse :=
  { success := false, error := some ("JSON parse error: " ++ e),
    message := "Failed to parse message: " ++ e }

/-- The host's reaction to one complete stdin frame, starting from a
fresh `OutState`: a frame whose bytes fail `JSON.parse` (with error
message `e`) answers with the parse-failure response; a parsed message
goes through `handleMessage`.  Either way the answer goes out through
`sendMessage`. -/
def hostHandleFrame (inp : Except String HostMsg) (fs : FS) : OutState :=
  match inp with
  | .error e => sendMessage initOut (parseFailResp e)
  | .ok msg => sendMessage initOut (handleMessage msg fs)

/-- The backup copies performed in a trace, in order: the source path of
every `copyFileSync`. -/
def backupEvents (evs : List FsEvent) : List String :=
  evs.filterMap fun e =>
    match e with
    | .backup src => some src
    | _ => none

/-- The write events in a trace, in order: the target of every
`writeFileSync`. -/
def writeEvents (evs : List FsEvent) : List String :=
  evs.filterMap fun e =>
    match e with
    | .write p => some p
    | _ => none

/-- Fixture: a locale tree whose `reviewed.json` holds `a: "x"` and with
no `old.json`. -/
def fsReviewedA : FS :=
  fun p => if p = "r/de/reviewed.json" then some (.obj [("a", .str "x")]) else none

/-- Fixture: both namespace files hold the key `k`. -/
def fsBothK : FS :=
  fun p =>
    if p = "r/de/reviewed.json" then some (.obj [("k", .str "rv")])
    else if p = "r/de/old.json" then some (.obj [("k", .str "ov")])
    else none

/-- Fixture: only `old.json` holds the key `k`. -/
def fsOldOnlyK : FS :=
  fun p => if p = "r/de/old.json" then some (.obj [("k", .str "ov")]) else none

/-- Fixture: one call with two edits of the same key whose expected old
values are both wrong. -/
def cfgTwoMismatches : Config :=
  ⟨"r", "de", false, some [⟨"a", "w1", "v1"⟩, ⟨"a", "w2", "v2"⟩]⟩

/-- Fixture: a call whose single edit has an empty `new` value. -/
def cfgEmptyNew : Config := ⟨"r", "de", false, some [⟨"a", "x", ""⟩]⟩

/-- Fixture: a locale tree whose `reviewed.json` holds the keys `a` and
`c` (but not `b`), with no `old.json`. -/
def fsReviewedAC : FS :=
  fun p =>
    if p = "r/de/reviewed.json" then
      some (.obj [("a", .str "x"), ("c", .str "z")])
    else none

/-- Fixture: three edits whose second lacks `expectedOldValue`. -/
def cfgSecondInvalid : Config :=
  ⟨"r", "de", false, some [⟨"a", "x", "X"⟩, ⟨"b", "", "Q"⟩, ⟨"c", "z", "Z"⟩]⟩

/-- Fixture: three edits whose second names a key absent from every
namespace. -/
def cfgSecondMissing : Config :=
  ⟨"r", "de", false, some [⟨"a", "x", "X"⟩, ⟨"b", "q", "Q"⟩, ⟨"c", "z", "Z"⟩]⟩

/-- Fixture: a well-formed host message updating key `a`. -/
def msgUpdateA : HostMsg := ⟨"r", "de", false, some [⟨"a", "x", "y"⟩]⟩

/-- A split never yields the empty segment list (matching JS, where
`s.split('.')` always has at least one element). -/
lemma splitSegs_ne_nil (cs : List Char) : splitSegs cs ≠ [] := by
  cases cs with
  | nil => simp [splitSegs]
  | cons c cs =>
    unfold splitSegs
    cases h : splitSegs cs with
    | nil => simp
    | cons seg rest => by_cases hc : c = '.' <;> simp [hc]

/-- A dot split (`splitDots`) never yields the empty list. -/
lemma splitDots_ne_nil (s : String) : splitDots s ≠ [] := by
  unfold splitDots
  intro h
  exact splitSegs_ne_nil s.data (by simpa using h)

/-- On any nonempty segment list, the existence check and the mutation
traversal make exactly the same sequence of `hasProp` tests. -/
lemma keyExistsSegs_iff_traverseSegs (kp : String) :
    ∀ (segs : List String) (j : Json), segs ≠ [] →
      (keyExistsSegs j segs = true ↔ (traverseSegs kp j segs).isOk = true) := by
  intro segs
  induction segs with
  | nil => intro j h; exact absurd rfl h
  | cons s rest ih =>
    intro j _
    cases rest with
    | nil =>
      by_cases hp : hasProp j s = true <;>
        simp [keyExistsSegs, traverseSegs, hp, Except.isOk, Except.toBool]
    | cons s2 rest2 =>
      by_cases hp : hasProp j s = true
      · simpa [keyExistsSegs, traverseSegs, hp] using ih (getProp j s) (by simp)
      · simp [keyExistsSegs, traverseSegs, hp, Except.isOk, Except.toBool]

/-- C10: for every JSON document and dot-separated key path, the
existence test used during the namespace search (`keyExists`) returns
true if and only if the traversal used for mutation (`traversePath`)
succeeds with a cursor rather than raising a missing-segment or
missing-final-key error: existence-testing and mutation share one
traversal semantics. -/
theorem keyExists_iff_traversePath_isOk (j : Json) (keyPath : String) :
    keyExists j keyPath = true ↔ (traversePath j keyPath).isOk = true :=
  keyExistsSegs_iff_traverseSegs keyPath (splitDots keyPath) j (splitDots_ne_nil keyPath)

/-- After writing a field, reading it back gives the written value. -/
lemma getProp_obj_setField (fields : List (String × Json)) (s : String) (v : Json) :
    getProp (.obj (setField fields s v)) s = v := by
  induction fields with
  | nil => simp [setField, getProp]
  | cons kv rest ih =>
    obtain ⟨k, w⟩ := kv
    by_cases hk : (k == s) = true
    · simp [setField, hk, getProp]
    · simp only [setField, hk]
      rw [Bool.not_eq_true] at hk
      simpa [getProp, List.find?_cons, hk] using ih

/-- After writing a field, the key is an own property. -/
lemma hasProp_obj_setField (fields : List (String × Json)) (s : String) (v : Json) :
    hasProp (.obj (setField fields s v)) s = true := by
  induction fields with
  | nil => simp [setField, hasProp]
  | cons kv rest ih =>
    obtain ⟨k, w⟩ := kv
    by_cases hk : (k == s) = true
    · simp [setField, hk, hasProp]
    · simp [setField, hk, hasProp]
      simpa [hasProp] using ih

/-- A found array index is in range and prints back to the segment. -/
lemma idxOf_some (len : Nat) (s : String) (i : Nat) (h : idxOf len s = some i) :
    i < len ∧ (toString i == s) = true := by
  unfold idxOf at h
  have hp := List.find?_some h
  have hm := List.mem_of_find?_eq_some h
  exact ⟨by simpa [List.mem_range] using hm, by simpa using hp⟩

/-- After writing an array element, reading the index back gives the
written value. -/
lemma getProp_arr_set (xs : List Json) (i : Nat) (v : Json) (s : String)
    (h : idxOf xs.length s = some i) :
    getProp (.arr (xs.set i v)) s = v := by
  have hlen : (xs.set i v).length = xs.length := List.length_set xs i v
  have hi := (idxOf_some xs.length s i h).1
  simp only [getProp, hlen, h]
  rw [List.getD_eq_getElem?_getD, List.getElem?_set_self (by simpa [hlen] using hi)]
  rfl

/-- After writing an array element, the index is still an own property. -/
lemma hasProp_arr_set (xs : List Json) (i : Nat) (v : Json) (s : String)
    (h : idxOf xs.length s = some i) :
    hasProp (.arr (xs.set i v)) s = true := by
  have hlen : (xs.set i v).length = xs.length := List.length_set xs i v
  simp [hasProp, hlen, h]

/-- A number has no own properties, so no assignment through it can
succeed. -/
lemma setSegs_num_not_ok (n : Int) (a : String) (rest : List String)
    (v j2 : Json) : setSegs (.num n) (a :: rest) v ≠ .ok j2 := by
  cases rest <;> simp [setSegs, hasProp]

/-- Writing through the traversal path and then traversing again reads
back the written value: the mutation really lands at the addressed key. -/
lemma traverseSegs_setSegs (kp : String) :
    ∀ (segs : List String) (j j2 v : Json),
      setSegs j segs v = .ok j2 → traverseSegs kp j2 segs = .ok v := by
  intro segs
  induction segs with
  | nil => intro j j2 v h; simp [setSegs] at h
  | cons s rest ih =>
    intro j j2 v h
    cases rest with
    | nil =>
      unfold setSegs at h
      by_cases hp : hasProp j s = true
      · rw [if_pos hp] at h
        cases j with
        | obj fields =>
          simp only [setLeaf, Except.ok.injEq] at h
          subst h
          simp [traverseSegs, hasProp_obj_setField, getProp_obj_setField]
        | arr xs =>
          simp only [setLeaf] at h
          cases hidx : idxOf xs.length s with
          | some i =>
            rw [hidx] at h
            simp only [Except.ok.injEq] at h
            subst h
            simp [traverseSegs, hasProp_arr_set xs i v s hidx,
              getProp_arr_set xs i v s hidx]
          | none => simp only [hidx] at h; split at h <;> simp at h
        | null => simp [setLeaf] at h
        | bool b => simp [setLeaf] at h
        | num n => simp [setLeaf] at h
        | str t => simp [setLeaf] at h
      · rw [if_neg hp] at h; simp at h
    | cons s2 rest2 =>
      unfold setSegs at h
      by_cases hp : hasProp j s = true
      · rw [if_pos hp] at h
        cases hin : setSegs (getProp j s) (s2 :: rest2) v with
        | error e => rw [hin] at h; simp at h
        | ok inner =>
          rw [hin] at h
          simp only [Except.ok.injEq] at h
          subst h
          have ihv := ih (getProp j s) inner v hin
          cases j with
          | obj fields =>
            simp only [setChild]
            unfold traverseSegs
            rw [if_pos (hasProp_obj_setField fields s inner),
              getProp_obj_setField fields s inner]
            exact ihv
          | arr xs =>
            cases hidx : idxOf xs.length s with
            | some i =>
              simp only [setChild, hidx]
              unfold traverseSegs
              rw [if_pos (hasProp_arr_set xs i inner s hidx),
                getProp_arr_set xs i inner s hidx]
              exact ihv
            | none =>
              exfalso
              have hps : s = "length" := by simpa [hasProp, hidx] using hp
              subst hps
              have hg : getProp (.arr xs) "length" = .num xs.length := by
                simp [getProp, hidx]
              rw [hg] at hin
              exact setSegs_num_not_ok _ _ _ _ _ hin
          | null => simp [hasProp] at hp
          | bool b => simp [hasProp] at hp
          | num n => simp [hasProp] at hp
          | str t => simp [hasProp] at hp
      · rw [if_neg hp] at h; simp at h

/-- Writing with `setSegs` along the split path, then `traversePath`, reads back the
written value. -/
lemma traversePath_setSegs (j j2 v : Json) (kp : String)
    (h : setSegs j (splitDots kp) v = .ok j2) :
    traversePath j2 kp = .ok v :=
  traverseSegs_setSegs kp (splitDots kp) j j2 v h


/-- The namespace search only reads; it never backs a file up. -/
lemma searchNs_no_backup (fs : FS) (root lang key : String) :
    ∀ nss, backupEvents (searchNs fs root lang key nss).1 = [] := by
  intro nss
  induction nss with
  | nil => simp [searchNs, backupEvents]
  | cons ns rest ih =>
    cases h : readFile fs (filePathOf root lang ns) with
    | none => simp only [searchNs, h]; exact ih
    | some d =>
      by_cases hk : keyExists d key = true
      · simp [searchNs, h, hk, backupEvents]
      · simp only [searchNs, h]
        rw [if_neg hk]
        simpa [backupEvents] using ih

/-- The step `processFound` only appends to the error list. -/
lemma processFound_errors_mono (force : Bool) (st : SessionState) (item : Item)
    (ns : String) (d : Json) (p : String) (evs : List FsEvent) :
    ∃ es, (processFound force st item ns d p evs).errors = st.errors ++ es := by
  cases htr : traversePath d item.key with
  | error e => exact ⟨[updateErrMsg ns item.key e], by simp [processFound, htr]⟩
  | ok cur =>
    by_cases hm : force = false ∧ jsToString cur ≠ item.old
    · exact ⟨[mismatchMsg ns item.key (jsToString cur) item.old],
        by simp [processFound, htr, hm]⟩
    · cases hset : setSegs d (splitDots item.key) (.str item.new) with
      | error e =>
        exact ⟨[updateErrMsg ns item.key e], by simp [processFound, htr, hm, hset]⟩
      | ok d2 => exact ⟨[], by simp [processFound, htr, hm, hset]⟩

/-- The step `processItem` only appends to the error list. -/
lemma processItem_errors_mono (force : Bool) (root lang : String)
    (st : SessionState) (item : Item) :
    ∃ es, (processItem force root lang st item).errors = st.errors ++ es := by
  unfold processItem
  by_cases hn : item.new = ""
  · rw [if_pos hn]; exact ⟨_, rfl⟩
  · rw [if_neg hn]
    rcases hs : searchNs st.fs root lang item.key namespacePriority with ⟨evs, found⟩
    cases found with
    | none => exact ⟨_, rfl⟩
    | some t =>
      obtain ⟨ns, d, p⟩ := t
      exact processFound_errors_mono force st item ns d p _

/-- The whole `forEach` loop only appends to the error list. -/
lemma foldl_errors_mono (force : Bool) (root lang : String) :
    ∀ (items : List Item) (st : SessionState),
      ∃ es, (items.foldl (processItem force root lang) st).errors = st.errors ++ es := by
  intro items
  induction items with
  | nil => intro st; exact ⟨[], by simp⟩
  | cons it rest ih =>
    intro st
    obtain ⟨es1, h1⟩ := processItem_errors_mono force root lang st it
    obtain ⟨es2, h2⟩ := ih (processItem force root lang st it)
    exact ⟨es1 ++ es2, by rw [List.foldl_cons, h2, h1, List.append_assoc]⟩

/-- The step `processFound` can only write the found file: every other path keeps
its content. -/
lemma processFound_fs_outside (force : Bool) (st : SessionState) (item : Item)
    (ns : String) (d : Json) (p : String) (evs : List FsEvent) (q : String)
    (hq : q ≠ p) :
    (processFound force st item ns d p evs).fs q = st.fs q := by
  cases htr : traversePath d item.key with
  | error e => simp [processFound, htr]
  | ok cur =>
    by_cases hm : force = false ∧ jsToString cur ≠ item.old
    · simp [processFound, htr, hm]
    · cases hset : setSegs d (splitDots item.key) (.str item.new) with
      | error e => simp [processFound, htr, hm, hset]
      | ok d2 => simp [processFound, htr, hm, hset, writeFile, hq]

/-- The step `processItem` can only write the file the search found: every other
path keeps its content. -/
lemma processItem_fs_outside (force : Bool) (root lang : String)
    (st : SessionState) (item : Item) (q : String)
    (h : ∀ ns d p, (searchNs st.fs root lang item.key namespacePriority).2 = some (ns, d, p) →
      q ≠ p) :
    (processItem force root lang st item).fs q = st.fs q := by
  unfold processItem
  by_cases hn : item.new = ""
  · rw [if_pos hn]
  · rw [if_neg hn]
    rcases hs : searchNs st.fs root lang item.key namespacePriority with ⟨evs, found⟩
    cases found with
    | none => rfl
    | some t =>
      obtain ⟨ns, d, p⟩ := t
      exact processFound_fs_outside force st item ns d p _ q (h ns d p (by rw [hs]))

/-- Unfolding `processItem` when the search found the key. -/
lemma processItem_found (force : Bool) (root lang : String)
    (st : SessionState) (item : Item) (evs : List FsEvent)
    (ns : String) (d : Json) (p : String)
    (hn : item.new ≠ "")
    (hs : searchNs st.fs root lang item.key namespacePriority = (evs, some (ns, d, p))) :
    processItem force root lang st item
      = processFound force st item ns d p
          (evs ++ if p ∈ st.updatedFiles then [] else [.backup p]) := by
  unfold processItem
  rw [if_neg hn, hs]

/-- Unfolding `processFound` on a value mismatch without `force`. -/
lemma processFound_mismatch (st : SessionState) (item : Item)
    (ns : String) (d : Json) (p : String) (evs : List FsEvent) (cur : Json)
    (htr : traversePath d item.key = .ok cur)
    (hm : jsToString cur ≠ item.old) :
    processFound false st item ns d p evs
      = { st with events := st.events ++ evs,
                  errors := st.errors ++
                    [mismatchMsg ns item.key (jsToString cur) item.old] } := by
  simp [processFound, htr, hm]

/-- Unfolding `processFound` when the check passes (or `force` is set)
and the assignment succeeds. -/
lemma processFound_write (force : Bool) (st : SessionState) (item : Item)
    (ns : String) (d : Json) (p : String) (evs : List FsEvent) (cur d2 : Json)
    (htr : traversePath d item.key = .ok cur)
    (hok : force = true ∨ jsToString cur = item.old)
    (hset : setSegs d (splitDots item.key) (.str item.new) = .ok d2) :
    processFound force st item ns d p evs
      = { st with fs := writeFile st.fs p d2,
                  events := st.events ++ evs ++ [.write p],
                  updatedFiles :=
                    if p ∈ st.updatedFiles then st.updatedFiles
                    else st.updatedFiles ++ [p] } := by
  have hm : ¬(force = false ∧ jsToString cur ≠ item.old) := by
    rcases hok with h | h <;> simp [h]
  simp [processFound, htr, hm, hset]

/-- The events `processFound` appends are `evs`, possibly followed by
one write. -/
lemma processFound_events (force : Bool) (st : SessionState) (item : Item)
    (ns : String) (d : Json) (p : String) (evs : List FsEvent) :
    (processFound force st item ns d p evs).events = st.events ++ evs
    ∨ (processFound force st item ns d p evs).events
        = st.events ++ evs ++ [.write p] := by
  cases htr : traversePath d item.key with
  | error e => exact Or.inl (by simp [processFound, htr])
  | ok cur =>
    by_cases hm : force = false ∧ jsToString cur ≠ item.old
    · exact Or.inl (by simp [processFound, htr, hm])
    · cases hset : setSegs d (splitDots item.key) (.str item.new) with
      | error e => exact Or.inl (by simp [processFound, htr, hm, hset])
      | ok d2 => exact Or.inr (by simp [processFound, htr, hm, hset])

/-- The step `processFound` never removes a path from `updatedFiles`. -/
lemma processFound_updatedFiles_mono (force : Bool) (st : SessionState)
    (item : Item) (ns : String) (d : Json) (p : String) (evs : List FsEvent)
    (q : String) (h : q ∈ st.updatedFiles) :
    q ∈ (processFound force st item ns d p evs).updatedFiles := by
  cases htr : traversePath d item.key with
  | error e => simpa [processFound, htr] using h
  | ok cur =>
    by_cases hm : force = false ∧ jsToString cur ≠ item.old
    · simpa [processFound, htr, hm] using h
    · cases hset : setSegs d (splitDots item.key) (.str item.new) with
      | error e => simpa [processFound, htr, hm, hset] using h
      | ok d2 =>
        simp only [processFound, htr, hm, hset]
        by_cases hp : p ∈ st.updatedFiles
        · simpa [hp] using h
        · simp only [hp]
          exact List.mem_append_left _ h


/-- The projection `backupEvents` distributes over concatenation. -/
lemma backupEvents_append (a b : List FsEvent) :
    backupEvents (a ++ b) = backupEvents a ++ backupEvents b := by
  simp [backupEvents]

/-- The projection `backupEvents` computed on each kind of head event. -/
lemma backupEvents_single (p : String) (evs : List FsEvent) :
    backupEvents (FsEvent.backup p :: evs) = p :: backupEvents evs
    ∧ backupEvents (FsEvent.write p :: evs) = backupEvents evs
    ∧ backupEvents (FsEvent.read p :: evs) = backupEvents evs :=
  ⟨rfl, rfl, rfl⟩

/-- The projection `backupEvents` of the empty trace. -/
lemma backupEvents_nil : backupEvents ([] : List FsEvent) = [] := rfl




/-- The observed value is a substring of the mismatch message. -/
lemma mismatchMsg_infix_cur (ns k cur expected : String) :
    List.IsInfix cur.data (mismatchMsg ns k cur expected).data := by
  refine ⟨("Mismatch for " ++ ns ++ "." ++ k ++ ": current=\"").data,
    ("\", expected=\"" ++ expected ++ "\"").data, ?_⟩
  simp [mismatchMsg, String.data_append, List.append_assoc]

/-- The expected value is a substring of the mismatch message. -/
lemma mismatchMsg_infix_expected (ns k cur expected : String) :
    List.IsInfix expected.data (mismatchMsg ns k cur expected).data := by
  refine ⟨("Mismatch for " ++ ns ++ "." ++ k ++ ": current=\"" ++ cur ++
    "\", expected=\"").data, ("\"").data, ?_⟩
  simp [mismatchMsg, String.data_append, List.append_assoc]

/-- C1: for an edit whose key resolves in a namespace with current leaf
value `V`: with `force = false` and `item.old ≠ String(V)`, the edit
records a mismatch error that contains both the observed and the
expected value, is skipped (no file changes, `updatedFiles` unchanged)
and the whole file system — in particular the found file — is
byte-identical to before; with `force = true` and a succeeding
assignment, the edit overwrites the value with `item.new` regardless of
the mismatch. -/
theorem mismatch_skip_and_force_overwrite
    (root lang : String) (st : SessionState) (item : Item)
    (evs : List FsEvent) (ns : String) (d : Json) (p : String) (V : Json)
    (hnew : item.new ≠ "")
    (hfind : searchNs st.fs root lang item.key namespacePriority
      = (evs, some (ns, d, p)))
    (hval : traversePath d item.key = .ok V)
    (hmis : jsToString V ≠ item.old) :
    ((processItem false root lang st item).errors
        = st.errors ++ [mismatchMsg ns item.key (jsToString V) item.old]
      ∧ List.IsInfix (jsToString V).data
          (mismatchMsg ns item.key (jsToString V) item.old).data
      ∧ List.IsInfix item.old.data
          (mismatchMsg ns item.key (jsToString V) item.old).data
      ∧ (processItem false root lang st item).fs = st.fs
      ∧ (processItem false root lang st item).updatedFiles = st.updatedFiles)
    ∧ (∀ d2, setSegs d (splitDots item.key) (.str item.new) = .ok d2 →
        (processItem true root lang st item).errors = st.errors
        ∧ (processItem true root lang st item).fs p = some d2
        ∧ traversePath d2 item.key = .ok (.str item.new)) := by
  constructor
  · rw [processItem_found false root lang st item evs ns d p hnew hfind,
      processFound_mismatch st item ns d p _ V hval hmis]
    exact ⟨by simp, mismatchMsg_infix_cur ns item.key (jsToString V) item.old,
      mismatchMsg_infix_expected ns item.key (jsToString V) item.old, by simp, by simp⟩
  · intro d2 hset
    rw [processItem_found true root lang st item evs ns d p hnew hfind,
      processFound_write true st item ns d p _ V d2 hval (Or.inl rfl) hset]
    exact ⟨by simp, by simp [writeFile],
      traversePath_setSegs d d2 (.str item.new) item.key hset⟩

/-- Witness for C1 at a concrete locale tree: the mismatching edit only
records the error, and the forced edit lands the new value in the file. -/
theorem mismatch_skip_and_force_overwrite_witness :
    (processItem false "r" "de" (initState fsReviewedA) ⟨"a", "y", "z"⟩).errors
      = [mismatchMsg "reviewed" "a" "x" "y"]
    ∧ (processItem false "r" "de" (initState fsReviewedA) ⟨"a", "y", "z"⟩).fs
      = fsReviewedA
    ∧ (processItem true "r" "de" (initState fsReviewedA) ⟨"a", "y", "z"⟩).fs
        "r/de/reviewed.json" = some (.obj [("a", .str "z")]) := by
  have h := mismatch_skip_and_force_overwrite "r" "de" (initState fsReviewedA)
      ⟨"a", "y", "z"⟩ [.read "r/de/reviewed.json"] "reviewed"
      (.obj [("a", .str "x")]) "r/de/reviewed.json" (.str "x")
      (by decide) (by rfl) (by rfl) (by decide)
  refine ⟨by simpa using h.1.1, h.1.2.2.2.1, ?_⟩
  have h2 := h.2 (.obj [("a", .str "z")]) (by rfl)
  exact h2.2.1

/-- C2: the namespace search tries `reviewed` before `old` and stops at
the first namespace containing the key.  When the key is in the primary
(`reviewed`) file, the edit resolves there and every other path — in
particular the fallback file — keeps its content; when only the fallback
(`old`) file has the key, the edit resolves there and every other path —
in particular the primary file — keeps its content. -/
theorem primary_before_fallback
    (force : Bool) (root lang : String) (st : SessionState) (item : Item) :
    (∀ dR, readFile st.fs (filePathOf root lang "reviewed") = some dR →
        keyExists dR item.key = true →
        (searchNs st.fs root lang item.key namespacePriority).2
          = some ("reviewed", dR, filePathOf root lang "reviewed")
        ∧ ∀ q, q ≠ filePathOf root lang "reviewed" →
            (processItem force root lang st item).fs q = st.fs q)
    ∧ (∀ dO, (∀ dR, readFile st.fs (filePathOf root lang "reviewed") = some dR →
            keyExists dR item.key = false) →
        readFile st.fs (filePathOf root lang "old") = some dO →
        keyExists dO item.key = true →
        (searchNs st.fs root lang item.key namespacePriority).2
          = some ("old", dO, filePathOf root lang "old")
        ∧ ∀ q, q ≠ filePathOf root lang "old" →
            (processItem force root lang st item).fs q = st.fs q) := by
  constructor
  · intro dR hR hK
    have hs : (searchNs st.fs root lang item.key namespacePriority).2
        = some ("reviewed", dR, filePathOf root lang "reviewed") := by
      simp [namespacePriority, searchNs, hR, hK]
    refine ⟨hs, fun q hq => processItem_fs_outside force root lang st item q ?_⟩
    intro ns d p hsp
    rw [hs] at hsp
    simp only [Option.some.injEq, Prod.mk.injEq] at hsp
    rw [← hsp.2.2]
    exact hq
  · intro dO hNR hO hKO
    have hs : (searchNs st.fs root lang item.key namespacePriority).2
        = some ("old", dO, filePathOf root lang "old") := by
      cases hRex : readFile st.fs (filePathOf root lang "reviewed") with
      | none => simp [namespacePriority, searchNs, hRex, hO, hKO]
      | some dR =>
        have hf := hNR dR hRex
        simp [namespacePriority, searchNs, hRex, hf, hO, hKO]
    refine ⟨hs, fun q hq => processItem_fs_outside force root lang st item q ?_⟩
    intro ns d p hsp
    rw [hs] at hsp
    simp only [Option.some.injEq, Prod.mk.injEq] at hsp
    rw [← hsp.2.2]
    exact hq

/-- Witness for C2: with the key in both files the edit resolves to
`reviewed.json` and `old.json` keeps its bytes; with the key only in
`old.json` the edit resolves there and `reviewed.json` stays absent. -/
theorem primary_before_fallback_witness :
    (searchNs fsBothK "r" "de" "k" namespacePriority).2
      = some ("reviewed", .obj [("k", .str "rv")], "r/de/reviewed.json")
    ∧ (processItem false "r" "de" (initState fsBothK) ⟨"k", "rv", "nv"⟩).fs
        "r/de/old.json" = some (.obj [("k", .str "ov")])
    ∧ (searchNs fsOldOnlyK "r" "de" "k" namespacePriority).2
      = some ("old", .obj [("k", .str "ov")], "r/de/old.json")
    ∧ (processItem false "r" "de" (initState fsOldOnlyK) ⟨"k", "ov", "nv"⟩).fs
        "r/de/reviewed.json" = none := by
  have h1 := (primary_before_fallback false "r" "de" (initState fsBothK)
      ⟨"k", "rv", "nv"⟩).1 (.obj [("k", .str "rv")]) rfl rfl
  have h2 := (primary_before_fallback false "r" "de" (initState fsOldOnlyK)
      ⟨"k", "ov", "nv"⟩).2 (.obj [("k", .str "ov")])
      (fun dR hdR => nomatch hdR) rfl rfl
  refine ⟨h1.1, ?_, h2.1, ?_⟩
  · rw [h1.2 "r/de/old.json" (by decide)]; rfl
  · rw [h2.2 "r/de/reviewed.json" (by decide)]; rfl


/-- Counterexample to C3: in one call, two edits of the same file that
both fail the old-value check leave two backup copies of that file and
perform no successful mutation at all (no write, `updatedFiles` empty) —
the backup is taken before the value check, each time the file is not
yet in `updatedFiles`. -/
theorem backup_per_file_counterexample :
    backupEvents (updateI18n cfgTwoMismatches fsReviewedA).2.events
      = ["r/de/reviewed.json", "r/de/reviewed.json"]
    ∧ (updateI18n cfgTwoMismatches fsReviewedA).2.updatedFiles = []
    ∧ writeEvents (updateI18n cfgTwoMismatches fsReviewedA).2.events = [] :=
  ⟨rfl, rfl, rfl⟩

/-- C3 amended: within one call, an edit that resolves to file `p`
creates exactly one backup of `p` when `p` has not yet been successfully
mutated (`p ∉ updatedFiles`), even when the edit itself then fails the
old-value check; once `p` has been successfully mutated it stays in
`updatedFiles` and later edits of `p` create no further backup. -/
theorem backup_before_each_attempt
    (force : Bool) (root lang : String) (st : SessionState) (item : Item)
    (evs : List FsEvent) (ns : String) (d : Json) (p : String)
    (hnew : item.new ≠ "")
    (hfind : searchNs st.fs root lang item.key namespacePriority
      = (evs, some (ns, d, p))) :
    (p ∈ st.updatedFiles →
      backupEvents (processItem force root lang st item).events
        = backupEvents st.events)
    ∧ (p ∉ st.updatedFiles →
      backupEvents (processItem force root lang st item).events
        = backupEvents st.events ++ [p])
    ∧ ∀ q, q ∈ st.updatedFiles →
        q ∈ (processItem force root lang st item).updatedFiles := by
  have hevs : backupEvents evs = [] := by
    have h := searchNs_no_backup st.fs root lang item.key namespacePriority
    rw [hfind] at h
    exact h
  rw [processItem_found force root lang st item evs ns d p hnew hfind]
  refine ⟨?_, ?_, ?_⟩
  · intro hp
    rw [if_pos hp, List.append_nil]
    rcases processFound_events force st item ns d p evs with h | h <;>
      simp [h, backupEvents_append, hevs, backupEvents_single, backupEvents_nil]
  · intro hp
    rw [if_neg hp]
    rcases processFound_events force st item ns d p (evs ++ [.backup p]) with h | h <;>
      simp [h, backupEvents_append, hevs, backupEvents_single, backupEvents_nil]
  · intro q hq
    exact processFound_updatedFiles_mono force st item ns d p _ q hq

/-- Witness for the amended C3: a single mismatching edit of a fresh
file leaves exactly one backup of it. -/
theorem backup_before_each_attempt_witness :
    backupEvents (processItem false "r" "de" (initState fsReviewedA)
      ⟨"a", "wrong", "v"⟩).events = ["r/de/reviewed.json"] := by
  have h := backup_before_each_attempt false "r" "de" (initState fsReviewedA)
      ⟨"a", "wrong", "v"⟩ [.read "r/de/reviewed.json"] "reviewed"
      (.obj [("a", .str "x")]) "r/de/reviewed.json" (by decide) (by rfl)
  simpa using h.2.1 (by simp [initState])


/-- Counterexample to C4: an edit with an empty `new` value is pushed
onto `errors` (not a separate skip list) and therefore makes the batch
result's `success` flag false. -/
theorem empty_new_counterexample :
    (updateI18n cfgEmptyNew fsReviewedA).1
      = .ok { success := false, updatedFiles := [], errors := [skipMsg "a"],
              message := "Completed with 1 error(s)" } :=
  rfl

/-- C4 amended: an edit whose `new` value is absent or empty is a
file-system no-op — it touches no file, creates no backup, performs no
event at all and leaves `updatedFiles` alone — but it is recorded in the
`errors` list (with a "Skipping item" message), so any call containing
such an edit returns `success = false`. -/
theorem empty_new_noop_but_error
    (force : Bool) (root lang : String) (st : SessionState) (item : Item)
    (h : item.new = "") :
    processItem force root lang st item
      = { st with errors := st.errors ++ [skipMsg item.key] }
    ∧ ∀ (cfg : Config) (fs : FS) (items : List Item) (r : UResult),
        cfg.payload = some items → item ∈ items →
        (updateI18n cfg fs).1 = .ok r → r.success = false := by
  constructor
  · simp [processItem, h]
  · intro cfg fs items r hp hmem hok
    unfold updateI18n at hok
    cases hv : validateItems 0 items with
    | error e => simp [hp, hv] at hok
    | ok u =>
      simp only [hp, hv] at hok
      simp only [Except.ok.injEq] at hok
      subst hok
      obtain ⟨l1, l2, rfl⟩ := List.append_of_mem hmem
      rw [List.foldl_append, List.foldl_cons]
      have hmid : (processItem cfg.force cfg.root cfg.lang
          (l1.foldl (processItem cfg.force cfg.root cfg.lang) (initState fs)) item).errors
          = (l1.foldl (processItem cfg.force cfg.root cfg.lang) (initState fs)).errors
            ++ [skipMsg item.key] := by
        simp [processItem, h]
      obtain ⟨es, hes⟩ := foldl_errors_mono cfg.force cfg.root cfg.lang l2
        (processItem cfg.force cfg.root cfg.lang
          (l1.foldl (processItem cfg.force cfg.root cfg.lang) (initState fs)) item)
      simp [mkResult, hes, hmid]

/-- Witness for the amended C4 at a concrete call: the empty-`new` edit
changes nothing but the error list, and the call reports failure. -/
theorem empty_new_noop_but_error_witness :
    (processItem false "r" "de" (initState fsReviewedA) ⟨"a", "x", ""⟩).errors
      = [skipMsg "a"]
    ∧ (processItem false "r" "de" (initState fsReviewedA) ⟨"a", "x", ""⟩).events = []
    ∧ ∀ r, (updateI18n cfgEmptyNew fsReviewedA).1 = .ok r → r.success = false := by
  have h := empty_new_noop_but_error false "r" "de" (initState fsReviewedA)
      ⟨"a", "x", ""⟩ rfl
  refine ⟨by rw [h.1]; rfl, by rw [h.1]; rfl, fun r hr =>
    h.2 cfgEmptyNew fsReviewedA [⟨"a", "x", ""⟩] r rfl (by simp [cfgEmptyNew]) hr⟩




/-- Counterexample to C5: when the second of three edits fails the
upfront validation (missing `expectedOldValue`), the whole call throws
before any processing — the first and third edits are NOT applied, no
file is read or written, and there is no response with an error list at
all. -/
theorem second_invalid_aborts_whole_call_counterexample :
    (updateI18n cfgSecondInvalid fsReviewedAC).1
      = .error "Item 1: missing required field (key or old)"
    ∧ (updateI18n cfgSecondInvalid fsReviewedAC).2.events = []
    ∧ (updateI18n cfgSecondInvalid fsReviewedAC).2.fs = fsReviewedAC :=
  ⟨rfl, rfl, rfl⟩

/-- C5 amended: per-item failures *during processing* are isolated —
with three edits whose second fails because its key is in no namespace,
the first and third are still applied and the response lists exactly one
error — but an edit missing `key` or `expectedOldValue` instead aborts
the whole call upfront, applying nothing. -/
theorem second_missing_key_isolated :
    (updateI18n cfgSecondMissing fsReviewedAC).1
      = .ok { success := false,
              updatedFiles := ["r/de/reviewed.json"],
              errors := [notFoundMsg "b"],
              message := "Completed with 1 error(s)" }
    ∧ (updateI18n cfgSecondMissing fsReviewedAC).2.fs "r/de/reviewed.json"
      = some (.obj [("a", .str "X"), ("c", .str "Z")]) :=
  ⟨rfl, rfl⟩

/-- The first payload item with a falsy `key` or `old` makes the
validation loop throw. -/
lemma validateItems_error_of_bad :
    ∀ (items : List Item) (idx : Nat),
      (∃ it ∈ items, it.key = "" ∨ it.old = "") →
      ∃ e, validateItems idx items = .error e := by
  intro items
  induction items with
  | nil => intro idx hbad; simp at hbad
  | cons it rest ih =>
    intro idx hbad
    by_cases hit : it.key = "" ∨ it.old = ""
    · exact ⟨"Item " ++ toString idx ++ ": missing required field (key or old)",
        by simp [validateItems, hit]⟩
    · obtain ⟨it2, hmem, h2⟩ := hbad
      rcases List.mem_cons.mp hmem with heq | hrest
      · exact absurd (heq ▸ h2) hit
      · obtain ⟨e, he⟩ := ih (idx + 1) ⟨it2, hrest, h2⟩
        exact ⟨e, by simp [validateItems, hit, he]⟩

/-- C6: if any payload item lacks a non-empty `key` or a non-empty
`old` (expected old value), the whole call fails with a thrown
validation error before any file-system access: the event trace is
empty, the file system is exactly the input one, and no file was marked
updated. -/
theorem invalid_item_fails_fast (cfg : Config) (fs : FS) (items : List Item)
    (hp : cfg.payload = some items)
    (hbad : ∃ it ∈ items, it.key = "" ∨ it.old = "") :
    (∃ e, (updateI18n cfg fs).1 = .error e)
    ∧ (updateI18n cfg fs).2.events = []
    ∧ (updateI18n cfg fs).2.fs = fs
    ∧ (updateI18n cfg fs).2.updatedFiles = [] := by
  obtain ⟨e, he⟩ := validateItems_error_of_bad items 0 hbad
  unfold updateI18n
  simp only [hp, he]
  exact ⟨⟨e, rfl⟩, rfl, rfl, rfl⟩

/-- Witness for C6 at a concrete call: an item with an empty key aborts
everything. -/
theorem invalid_item_fails_fast_witness :
    (∃ e, (updateI18n ⟨"r", "de", false, some [⟨"", "x", "y"⟩]⟩ fsReviewedA).1
      = .error e)
    ∧ (updateI18n ⟨"r", "de", false, some [⟨"", "x", "y"⟩]⟩ fsReviewedA).2.events
      = [] := by
  have h := invalid_item_fails_fast ⟨"r", "de", false, some [⟨"", "x", "y"⟩]⟩
      fsReviewedA [⟨"", "x", "y"⟩] rfl ⟨⟨"", "x", "y"⟩, by simp, Or.inl rfl⟩
  exact ⟨h.1, h.2.1⟩


/-- Counterexample to C7: for a successful call whose `updatedFiles`
list is non-empty, the framed response written to stdout is built from
`success` and `message` alone — the updated path (and any error list)
does not occur anywhere in the framed payload, so the response does not
contain the `updatedFiles` and `errors` lists. -/
theorem framed_response_omits_lists_counterexample :
    (updateI18n ⟨"r", "de", false, some [⟨"a", "x", "y"⟩]⟩ fsReviewedA).1
      = .ok { success := true, updatedFiles := ["r/de/reviewed.json"],
              errors := [],
              message := "Successfully updated 1 file(s)" }
    ∧ (hostHandleFrame (.ok msgUpdateA) fsReviewedA).stdoutFrames
      = [encodeFrame
          "\x7b\"success\":true,\"message\":\"Successfully updated 1 file(s)\"\x7d"]
    ∧ ¬ List.IsInfix "r/de/reviewed.json".data
        "\x7b\"success\":true,\"message\":\"Successfully updated 1 file(s)\"\x7d".data :=
  ⟨rfl, rfl, by decide⟩

/-- C7 amended: the framed response contains the success flag and the
summary message (with `"OK"` substituted for an empty message) and
nothing else — `updatedFiles` and `errors` exist only on the in-process
result object `updateI18n` returns to its caller, not in the framed
response. -/
theorem framed_response_success_and_message_only
    (msg : HostMsg) (fs : FS) (r : UResult)
    (hok : (updateI18n ⟨msg.root, msg.lang, msg.force, msg.payload⟩ fs).1 = .ok r)
    (hroot : msg.root ≠ "") (hlang : msg.lang ≠ "") (hpay : msg.payload ≠ none) :
    (hostHandleFrame (.ok msg) fs).stdoutFrames
      = [encodeFrame (serializeWire
          { success := r.success, error := none,
            message := if r.message = "" then "OK" else r.message })] := by
  have hred : hostHandleFrame (.ok msg) fs = sendMessage initOut (handleMessage msg fs) :=
    rfl
  have hcond : ¬(msg.root = "" ∨ msg.lang = "" ∨ msg.payload = none) := by
    simp [hroot, hlang, hpay]
  rw [hred]
  unfold handleMessage
  rw [if_neg hcond]
  simp only [hok]
  rfl

/-- Witness for the amended C7 at a concrete call. -/
theorem framed_response_success_and_message_only_witness :
    (hostHandleFrame (.ok msgUpdateA) fsReviewedA).stdoutFrames
      = [encodeFrame (serializeWire
          ⟨true, none, "Successfully updated 1 file(s)"⟩)] := by
  have h := framed_response_success_and_message_only msgUpdateA fsReviewedA
      { success := true, updatedFiles := ["r/de/reviewed.json"], errors := [],
        message := "Successfully updated 1 file(s)" }
      rfl (by decide) (by decide) (by simp [msgUpdateA])
  simpa using h

/-- C9: for every complete incoming frame — whether its bytes fail
`JSON.parse` or parse to any message, and whatever the file system —
exactly one framed response is written to stdout, and any further
`sendMessage` attempt (for example from the uncaught-exception handler)
is ignored by the `hasResponded` guard and writes nothing more.  (Only
`sendMessage` writes to stdout at all: the host's prologue rebinds every
console logger to stderr.) -/
theorem exactly_one_framed_response (inp : Except String HostMsg) (fs : FS) :
    (hostHandleFrame inp fs).stdoutFrames.length = 1
    ∧ ∀ r, sendMessage (hostHandleFrame inp fs) r = hostHandleFrame inp fs := by
  cases inp with
  | error e => exact ⟨rfl, fun r => rfl⟩
  | ok m => exact ⟨rfl, fun r => rfl⟩

/-- Every Lean `Char` is a Unicode scalar value below `0x110000`. -/
lemma char_toNat_lt (c : Char) : c.toNat < 1114112 := by
  have h := c.valid
  rcases h with h | ⟨h1, h2⟩
  · have hx : c.val.toNat < 55296 := h
    simp [Char.toNat]
    omega
  · have hx : c.val.toNat < 1114112 := h2
    simp [Char.toNat]
    omega

/-- Decoding after encoding one character recovers it and proceeds with
the remaining bytes. -/
lemma utf8Decode_encodeChar (c : Char) (rest : List Nat) :
    utf8Decode (encodeChar c ++ rest) = (utf8Decode rest).map (fun cs => c :: cs) := by
  have hub : c.toNat < 1114112 := char_toNat_lt c
  by_cases h1 : c.toNat < 128
  · have he : encodeChar c = [c.toNat] := by simp [encodeChar, h1]
    rw [he, List.cons_append, List.nil_append, utf8Decode.eq_def]
    dsimp only
    rw [if_pos h1]
    simp only [Char.ofNat_toNat]
  · by_cases h2 : c.toNat < 2048
    · have he : encodeChar c = [192 + c.toNat / 64, 128 + c.toNat % 64] := by
        simp [encodeChar, h1, h2]
      rw [he]
      simp only [List.cons_append, List.nil_append]
      rw [utf8Decode.eq_def]
      dsimp only
      rw [if_neg (by omega : ¬ (192 + c.toNat / 64 < 128)),
        if_neg (by omega : ¬ (192 + c.toNat / 64 < 192)),
        if_pos (by omega : 192 + c.toNat / 64 < 224)]
      rw [utf8Tail2.eq_def]
      dsimp only
      rw [if_pos (by omega :
        128 ≤ 128 + c.toNat % 64 ∧ 128 + c.toNat % 64 < 192)]
      have harith : (192 + c.toNat / 64 - 192) * 64 + (128 + c.toNat % 64 - 128)
          = c.toNat := by omega
      simp only [harith, Char.ofNat_toNat]
    · by_cases h3 : c.toNat < 65536
      · have he : encodeChar c
            = [224 + c.toNat / 4096, 128 + c.toNat / 64 % 64, 128 + c.toNat % 64] := by
          simp [encodeChar, h1, h2, h3]
        rw [he]
        simp only [List.cons_append, List.nil_append]
        rw [utf8Decode.eq_def]
        dsimp only
        rw [if_neg (by omega : ¬ (224 + c.toNat / 4096 < 128)),
          if_neg (by omega : ¬ (224 + c.toNat / 4096 < 192)),
          if_neg (by omega : ¬ (224 + c.toNat / 4096 < 224)),
          if_pos (by omega : 224 + c.toNat / 4096 < 240)]
        rw [utf8Tail3.eq_def]
        dsimp only
        rw [if_pos (by omega :
          (128 ≤ 128 + c.toNat / 64 % 64 ∧ 128 + c.toNat / 64 % 64 < 192)
          ∧ (128 ≤ 128 + c.toNat % 64 ∧ 128 + c.toNat % 64 < 192))]
        have harith : (224 + c.toNat / 4096 - 224) * 4096
            + (128 + c.toNat / 64 % 64 - 128) * 64 + (128 + c.toNat % 64 - 128)
            = c.toNat := by omega
        simp only [harith, Char.ofNat_toNat]
      · have he : encodeChar c
            = [240 + c.toNat / 262144, 128 + c.toNat / 4096 % 64,
               128 + c.toNat / 64 % 64, 128 + c.toNat % 64] := by
          simp [encodeChar, h1, h2, h3]
        rw [he]
        simp only [List.cons_append, List.nil_append]
        rw [utf8Decode.eq_def]
        dsimp only
        rw [if_neg (by omega : ¬ (240 + c.toNat / 262144 < 128)),
          if_neg (by omega : ¬ (240 + c.toNat / 262144 < 192)),
          if_neg (by omega : ¬ (240 + c.toNat / 262144 < 224)),
          if_neg (by omega : ¬ (240 + c.toNat / 262144 < 240)),
          if_pos (by omega : 240 + c.toNat / 262144 < 248)]
        rw [utf8Tail4.eq_def]
        dsimp only
        rw [if_pos (by omega :
          (128 ≤ 128 + c.toNat / 4096 % 64 ∧ 128 + c.toNat / 4096 % 64 < 192)
          ∧ ((128 ≤ 128 + c.toNat / 64 % 64 ∧ 128 + c.toNat / 64 % 64 < 192)
            ∧ (128 ≤ 128 + c.toNat % 64 ∧ 128 + c.toNat % 64 < 192)))]
        have harith : (240 + c.toNat / 262144 - 240) * 262144
            + (128 + c.toNat / 4096 % 64 - 128) * 4096
            + (128 + c.toNat / 64 % 64 - 128) * 64 + (128 + c.toNat % 64 - 128)
            = c.toNat := by omega
        simp only [harith, Char.ofNat_toNat]

/-- UTF-8 decoding inverts UTF-8 encoding on every character list. -/
lemma utf8Decode_utf8Encode (cs : List Char) :
    utf8Decode (cs.flatMap encodeChar) = some cs := by
  induction cs with
  | nil => simp [utf8Decode]
  | cons c rest ih => simp [List.flatMap_cons, utf8Decode_encodeChar, ih]

/-- C8: for every payload string whose UTF-8 byte length fits the 4-byte
prefix, the frame `sendMessage` writes carries a little-endian length
prefix equal to the UTF-8 byte length of the payload (the byte count,
not the character count), and reading that many bytes back and decoding
them as UTF-8 yields exactly the original string. -/
theorem frame_length_and_roundtrip (payload : String)
    (h : (utf8Encode payload).length < 4294967296) :
    frameLen (encodeFrame payload) = some (utf8Encode payload).length
    ∧ decodeFrame (encodeFrame payload) = some payload := by
  constructor
  · unfold encodeFrame uint32LE frameLen readUInt32LE
    simp only [List.cons_append, List.nil_append]
    exact congrArg some (by omega)
  · unfold decodeFrame encodeFrame uint32LE
    simp only [List.cons_append, List.nil_append]
    have hr : readUInt32LE ((utf8Encode payload).length % 256)
        ((utf8Encode payload).length / 256 % 256)
        ((utf8Encode payload).length / 65536 % 256)
        ((utf8Encode payload).length / 16777216 % 256)
        = (utf8Encode payload).length := by
      unfold readUInt32LE
      omega
    rw [hr, if_pos (le_refl (utf8Encode payload).length), List.take_length]
    unfold utf8Encode
    rw [utf8Decode_utf8Encode]
    rfl

/-- Witness for C8 on a payload with the multi-byte characters "ä" and
"ö": four UTF-8 bytes but two characters — the prefix carries the byte
count — and the frame decodes back to the original string. -/
theorem frame_length_and_roundtrip_witness :
    (utf8Encode "äö").length = 4
    ∧ "äö".length = 2
    ∧ frameLen (encodeFrame "äö") = some 4
    ∧ decodeFrame (encodeFrame "äö") = some "äö" := by
  have h := frame_length_and_roundtrip "äö" (by decide)
  exact ⟨rfl, rfl, by simpa using h.1, h.2⟩
